import Mathlib

/-!
sshdog, `server.go`: a shallow embedding of the `Server` type, `NewServer`,
`ListenAndServe`, `AddAuthorizedKeys`, `VerifyPublicKey` and `AddHostkey`, and
theorems about them.

Conventions of the embedding.

* A Go `[]byte` is a `List UInt8`; `string(b)` of a byte slice keeps the bytes,
  so a Go `string` used as a map key is the same `List UInt8`.
* A Go `map[string]bool` is a `Finmap` from byte strings to `Bool`: finite,
  unordered, one value per key, equal when all lookups agree.
* A method with a pointer receiver `s *Server` takes the server value and gives
  back the server value after the call.
* `golang.org/x/crypto/ssh` and `net` are libraries, and `NewServerConn` and
  `HandleConn` are defined elsewhere in the package.  The two parsers of `ssh`
  are parameters (`SSH`), and so is `net.Listen` (`Net`); what `Accept` and
  `NewServerConn` return depends on the network and is an input (`Outcome`).
* Two library functions whose behaviour decides what `server.go` does are
  also given as definitions that follow the library: `ssh.ParseAuthorizedKey`
  (`ParseAuthorizedKey`, with base64 decoding and `ssh.ParsePublicKey` left as
  the parameter `decodeKey`) and `(*ssh.ServerConfig).AddHostKey`.
* `dbg.Debug(format, args...)` is one `DebugLine`, kept in the debug output of
  `VerifyPublicKey` and `AddAuthorizedKeys` and in the trace of `ListenAndServe`.
* A loop that the source does not bound takes a bound `fuel` on the number of
  times its condition is evaluated and returns `none` when the bound is
  reached; `ListenAndServe`, whose loop never ends, is run on a finite list of
  network outcomes and returns the state it is in when they are used up.
-/

namespace Sshdog

/-- Go `[]byte`, and Go `string` seen as its bytes. -/
abbrev Bytes := List UInt8

/-- Go `error` values that `server.go` tells apart: `io.EOF` and everything
else, which is kept as its message. -/
inductive GoError where
  | EOF
  | errorString (msg : String)
  deriving DecidableEq, Repr

/-- One call `dbg.Debug(format, args...)`; arguments are kept already rendered. -/
structure DebugLine where
  format : String
  args : List String
  deriving DecidableEq, Repr

/-- The part of `ssh.PublicKey` that a caller can read: `Type()` (here
`KeyType`, as `Type` is reserved) and `Marshal()`. -/
structure PublicKey where
  KeyType : String
  Marshal : Bytes
  deriving DecidableEq, Repr

/-- The part of `ssh.Signer` that is visible here: its public key. -/
structure Signer where
  PublicKey : PublicKey
  deriving DecidableEq, Repr

/-- Go `ssh.Permissions`: two string maps, kept as association lists; the
zero value `ssh.Permissions{}` has both empty. -/
structure Permissions where
  CriticalOptions : List (String × String)
  Extensions : List (String × String)
  deriving DecidableEq, Repr

/-- The part of `ssh.ConnMetadata` a callback can query. -/
structure ConnMetadata where
  User : String
  SessionID : Bytes
  ClientVersion : Bytes
  ServerVersion : Bytes
  RemoteAddr : String
  LocalAddr : String
  deriving DecidableEq, Repr

/-- Go `net.Listener` as returned by `net.Listen("tcp", addr)`. -/
structure Listener where
  network : String
  address : String
  deriving DecidableEq, Repr

/-- Go `net.Conn` as returned by `Accept`. -/
structure Conn where
  id : Nat
  RemoteAddr : String
  deriving DecidableEq, Repr

/-- The `*ServerConn` that `NewServerConn` returns after a handshake. -/
structure ServerConn where
  conn : Conn
  deriving DecidableEq, Repr

/-- The value stored in `ServerConfig.PublicKeyCallback`: the only function
`server.go` stores there is the method value `s.VerifyPublicKey`. -/
inductive PublicKeyCallback where
  | VerifyPublicKey
  deriving DecidableEq, Repr

/-- The part of `ssh.ServerConfig` that `server.go` touches: the host keys
and the public-key callback. -/
structure ServerConfig where
  hostKeys : List Signer
  PublicKeyCallback : Option PublicKeyCallback
  deriving DecidableEq, Repr

/-- Go `map[string]bool` with byte-string keys. -/
abbrev KeyMap := Finmap (fun _ : Bytes => Bool)

/-- Go `type Server struct`. -/
structure Server where
  ServerConfig : ServerConfig
  Socket : Option Listener
  AuthorizedKeys : KeyMap
  deriving DecidableEq

/-- Go `var keyNames`. -/
def keyNames : List String :=
  ["ssh_host_dsa_key", "ssh_host_ecdsa_key", "ssh_host_rsa_key"]

/-- Go `NewServer`. -/
def NewServer : Server :=
  { ServerConfig := { hostKeys := [], PublicKeyCallback := some .VerifyPublicKey }
    Socket := none
    AuthorizedKeys := ∅ }

/-- How `%v` renders an `error`. -/
def GoError.render : GoError → String
  | .EOF => "EOF"
  | .errorString msg => msg

/-- What a call of `VerifyPublicKey` leaves behind: the two results, the
receiver after the call and the debug output. -/
structure VerifyResult where
  permissions : Option Permissions
  err : Option GoError
  server : Server
  debug : List DebugLine
  deriving DecidableEq

/-- Go `(*Server).VerifyPublicKey`. -/
def VerifyPublicKey (s : Server) (_conn : ConnMetadata) (key : PublicKey) : VerifyResult :=
  let keyStr := key.Marshal
  if (s.AuthorizedKeys.lookup keyStr).isSome = false then
    { permissions := none
      err := some (.errorString "No valid key found.")
      server := s
      debug := [⟨"Key not found!", []⟩] }
  else
    { permissions := some ⟨[], []⟩
      err := none
      server := s
      debug := [] }

/-- What `ssh.ParseAuthorizedKey(in)` returns, as far as `AddAuthorizedKeys`
reads it (`out, _, _, rest, err`): with `err == nil` a key and the rest of the
input, with `err != nil` the rest and the error. -/
inductive ParsedAuthorizedKey where
  | ok (out : PublicKey) (rest : Bytes)
  | fail (rest : Bytes) (err : GoError)
  deriving DecidableEq, Repr

/-- The two parsers of `golang.org/x/crypto/ssh` that `server.go` calls. -/
structure SSH where
  ParseAuthorizedKey : Bytes → ParsedAuthorizedKey
  ParsePrivateKey : Bytes → Except GoError Signer

/-- The state of the `for len(keyData) > 0` loop of `AddAuthorizedKeys`, which
is also what the method leaves behind: the receiver, the debug output and
`parses`, the number of loop iterations run so far (each one starts with one
call of `ssh.ParseAuthorizedKey`). -/
structure AddKeysResult where
  server : Server
  debug : List DebugLine
  parses : Nat
  deriving DecidableEq

/-- The loop of Go `(*Server).AddAuthorizedKeys`.  `fuel` bounds the number of
times the loop condition is evaluated; `none` means the bound was reached
with the loop still running. -/
def addAuthorizedKeysLoop (ssh : SSH) : Nat → AddKeysResult → Bytes → Option AddKeysResult
  | 0, _, _ => none
  | fuel + 1, st, keyData =>
    if keyData.length > 0 then
      match ssh.ParseAuthorizedKey keyData with
      | .fail _left err =>
        some { st with
          debug := st.debug ++ [⟨"Error parsing key: %v", [err.render]⟩]
          parses := st.parses + 1 }
      | .ok newKey left =>
        addAuthorizedKeysLoop ssh fuel
          { server := { st.server with
              AuthorizedKeys := st.server.AuthorizedKeys.insert newKey.Marshal true }
            debug := st.debug
            parses := st.parses + 1 }
          left
    else
      some st

/-- Go `(*Server).AddAuthorizedKeys`. -/
def AddAuthorizedKeys (ssh : SSH) (fuel : Nat) (s : Server) (keyData : Bytes) :
    Option AddKeysResult :=
  addAuthorizedKeysLoop ssh fuel { server := s, debug := [], parses := 0 } keyData

/-- The loop of `(*ssh.ServerConfig).AddHostKey` over the host keys held:
the first one whose public key has the type of `key` is replaced by `key`;
when there is none, `key` is appended. -/
def addHostKeyLoop : List Signer → Signer → List Signer
  | [], key => [key]
  | k :: ks, key =>
    if k.PublicKey.KeyType = key.PublicKey.KeyType then key :: ks
    else k :: addHostKeyLoop ks key

/-- Go `(*ssh.ServerConfig).AddHostKey` of `golang.org/x/crypto/ssh` (a
library, not in `server.go`): "If an existing host key exists with the same
algorithm, it is overwritten"; otherwise the key is appended. -/
def ServerConfig.AddHostKey (c : ServerConfig) (key : Signer) : ServerConfig :=
  { c with hostKeys := addHostKeyLoop c.hostKeys key }

/-- Go `(*Server).AddHostkey`.  The Go method has no result: what it leaves
behind is the receiver. -/
def AddHostkey (ssh : SSH) (s : Server) (keyData : Bytes) : Server :=
  match ssh.ParsePrivateKey keyData with
  | .ok key => { s with ServerConfig := s.ServerConfig.AddHostKey key }
  | .error _ => s

/-- Conversion of an integer to Go `int16`: the value modulo `2^16` in
`-32768..32767`. -/
def int16 (x : Int) : Int :=
  (x + 32768) % 65536 - 32768

/-- Go `strconv.Itoa`: base-10 digits, with a leading `-` below zero. -/
def Itoa (i : Int) : String :=
  if i < 0 then "-" ++ Nat.repr (-i).toNat else Nat.repr i.toNat

/-- The part of package `net` that `ListenAndServe` calls to bind:
`net.Listen(network, address)`. -/
structure Net where
  Listen : String → String → Except GoError Listener

/-- What `ListenAndServe` does that is visible outside the `Server` value,
in program order. -/
inductive Effect where
  | Listen (network address : String)
  | Accept
  | NewServerConn (conn : Conn)
  | GoHandleConn (sConn : ServerConn)
  | Debug (line : DebugLine)
  deriving DecidableEq, Repr

/-- What the network gives one iteration of the accept loop: `Accept` fails;
`Accept` gives a connection and `NewServerConn` fails on it; or both
succeed. -/
inductive Outcome where
  | acceptError (err : GoError)
  | handshakeError (conn : Conn) (err : GoError)
  | handshakeOk (conn : Conn) (sConn : ServerConn)
  deriving DecidableEq, Repr

/-- Where a call of `ListenAndServe` stands: `Bound`, inside the accept loop
and blocked in the `s.Socket.Accept()` it has just called, or `Returned`. -/
inductive ServeState where
  | Bound (server : Server) (trace : List Effect)
  | Returned (err : GoError) (server : Server) (trace : List Effect)
  deriving DecidableEq

/-- One iteration of the `for` loop of `ListenAndServe`, from the return of
`Accept` to the next call of `Accept`. -/
def acceptLoopBody (s : Server) (trace : List Effect) : Outcome → ServeState
  | .acceptError err =>
    .Bound s (trace ++ [.Debug ⟨"Unable to accept: %v", [err.render]⟩, .Accept])
  | .handshakeError conn err =>
    let trace := trace ++
      [.Debug ⟨"Accepted connection from: %s", [conn.RemoteAddr]⟩, .NewServerConn conn]
    if err = .EOF then
      .Bound s (trace ++ [.Debug ⟨"Connection closed by remote host.", []⟩, .Accept])
    else
      .Bound s (trace ++ [.Debug ⟨"Unable to negotiate SSH: %v", [err.render]⟩, .Accept])
  | .handshakeOk conn sConn =>
    .Bound s (trace ++
      [.Debug ⟨"Accepted connection from: %s", [conn.RemoteAddr]⟩, .NewServerConn conn,
       .Debug ⟨"Authenticated client from: %s", [sConn.conn.RemoteAddr]⟩,
       .GoHandleConn sConn, .Accept])

/-- The accept loop fed one more outcome; a call that has returned stays
returned. -/
def acceptLoopStep : ServeState → Outcome → ServeState
  | .Bound s trace, o => acceptLoopBody s trace o
  | .Returned err s trace, _ => .Returned err s trace

/-- Go `(*Server).ListenAndServe`, run until the network outcomes given are
used up.  The parameter `port` has type `int16`. -/
def ListenAndServe (net : Net) (s : Server) (port : Int) (outcomes : List Outcome) :
    ServeState :=
  let sPort := ":" ++ Itoa (int16 port)
  match net.Listen "tcp" sPort with
  | .error err =>
    .Returned err s [.Listen "tcp" sPort, .Debug ⟨"Unable to listen: %v", [err.render]⟩]
  | .ok sock =>
    outcomes.foldl acceptLoopStep
      (.Bound { s with Socket := some sock }
        [.Listen "tcp" sPort, .Debug ⟨"Listening on %s", [sPort]⟩, .Accept])

/-- The effects of a call of `ListenAndServe` so far. -/
def ServeState.trace : ServeState → List Effect
  | .Bound _ trace => trace
  | .Returned _ _ trace => trace

/-- The handling tasks started in a trace (`go sConn.HandleConn()`), in the
order they were started. -/
def handlers (trace : List Effect) : List ServerConn :=
  trace.filterMap fun
    | .GoHandleConn sConn => some sConn
    | _ => none

/-- The connections of the iterations in which `Accept` and the handshake
both succeeded, in the order of the iterations. -/
def authenticated (outcomes : List Outcome) : List ServerConn :=
  outcomes.filterMap fun
    | .handshakeOk _ sConn => some sConn
    | _ => none

/-- Parsing `buf` record after record yields the keys `keys`, each call of
the parser succeeding on a non-empty input and handing its rest to the next
one, and leaves `rest`: `buf` is `keys.length` valid records followed by
`rest`. -/
def ParsesRecords (ssh : SSH) : List PublicKey → Bytes → Bytes → Prop
  | [], buf, rest => buf = rest
  | key :: keys, buf, rest =>
    buf ≠ [] ∧ ∃ mid, ssh.ParseAuthorizedKey buf = .ok key mid ∧ ParsesRecords ssh keys mid rest

/-- The map after `AuthorizedKeys[string(key.Marshal())] = true` has been run
for each of the keys, first to last. -/
def insertKeys (m : KeyMap) (keys : List PublicKey) : KeyMap :=
  keys.foldl (fun m key => m.insert key.Marshal true) m

/-- The bytes of an ASCII string. -/
def ascii (str : String) : Bytes :=
  str.data.map (fun c => UInt8.ofNat c.toNat)

/-- ASCII white space, what `bytes.TrimSpace` removes from a line of ASCII
text: tab, newline, vertical tab, form feed, carriage return, space. -/
def isSpace (b : UInt8) : Bool :=
  b == 9 || b == 10 || b == 11 || b == 12 || b == 13 || b == 32

/-- A space or a tab, the separators of `bytes.IndexAny(in, " \t")`. -/
def isBlank (b : UInt8) : Bool :=
  b == 32 || b == 9

/-- Go `bytes.TrimSpace`, on ASCII white space. -/
def TrimSpace (b : Bytes) : Bytes :=
  ((b.dropWhile isSpace).reverse.dropWhile isSpace).reverse

/-- The private `parseAuthorizedKey(in)` of `golang.org/x/crypto/ssh`: it
trims `in`, takes the field up to the next space or tab, base64-decodes it
and parses the result as a public key.  The last two steps are `decodeKey`,
from the field to the key when both succeed. -/
def parseAuthorizedKey (decodeKey : Bytes → Option PublicKey) (input : Bytes) :
    Option PublicKey :=
  decodeKey ((TrimSpace input).takeWhile (fun b => !isBlank b))

/-- The scan of `ssh.ParseAuthorizedKey` for the end of an options field:
the input from the first space or tab outside double quotes on, or `none`
when there is none; a quote after a backslash does not open or close. -/
def scanOptions : Bool → Option UInt8 → Bytes → Option Bytes
  | _, _, [] => none
  | inQuote, prev, b :: bs =>
    if !inQuote && isBlank b then some (b :: bs)
    else scanOptions (if b == 34 && prev != some 92 then !inQuote else inQuote) (some b) bs

/-- What `ssh.ParseAuthorizedKey` makes of one line (the input up to the next
newline): the line is cut at the first carriage return and trimmed; an empty
line, a comment and a line of one field hold no key; otherwise the key is
what follows the first field, or, when that is no key, what follows the field
after an options field. -/
def parseLine (decodeKey : Bytes → Option PublicKey) (line : Bytes) : Option PublicKey :=
  let line := TrimSpace (line.takeWhile (fun b => b != 13))
  if line = [] ∨ line.head? = some 35 then none
  else if line.any isBlank = false then none
  else
    match parseAuthorizedKey decodeKey (line.dropWhile (fun b => !isBlank b)) with
    | some out => some out
    | none =>
      let tail :=
        match scanOptions false none line with
        | some tail => tail
        | none => line.drop (line.length - 1)
      let line := tail.dropWhile isBlank
      if line = [] then none
      else if line.any isBlank = false then none
      else parseAuthorizedKey decodeKey (line.dropWhile (fun b => !isBlank b))

/-- The `for len(in) > 0` loop of `ssh.ParseAuthorizedKey`: a line that holds
no key is skipped; the first line that holds one is returned with what
follows its newline; when no line is left the result is the error
"ssh: no key found" with a nil rest.  `fuel` bounds the number of times the
loop condition is evaluated. -/
def parseAuthorizedKeyLoop (decodeKey : Bytes → Option PublicKey) :
    Nat → Bytes → ParsedAuthorizedKey
  | 0, _ => .fail [] (.errorString "ssh: no key found")
  | fuel + 1, input =>
    if input.length > 0 then
      let line := input.takeWhile (fun b => b != 10)
      let rest := (input.dropWhile (fun b => b != 10)).drop 1
      match parseLine decodeKey line with
      | some out => .ok out rest
      | none => parseAuthorizedKeyLoop decodeKey fuel rest
    else
      .fail [] (.errorString "ssh: no key found")

/-- Go `ssh.ParseAuthorizedKey` of `golang.org/x/crypto/ssh` (a library, not
in `server.go`), as far as `AddAuthorizedKeys` reads its results.  Each
iteration of its loop removes at least one byte of the input, so
`len(in) + 1` evaluations of the loop condition are enough. -/
def ParseAuthorizedKey (decodeKey : Bytes → Option PublicKey) (input : Bytes) :
    ParsedAuthorizedKey :=
  parseAuthorizedKeyLoop decodeKey (input.length + 1) input

/-- A line (without its newline) that holds the key `key`. -/
def ValidLine (decodeKey : Bytes → Option PublicKey) (key : PublicKey) (line : Bytes) : Prop :=
  10 ∉ line ∧ parseLine decodeKey line = some key

/-- A line (without its newline) that holds no key. -/
def InvalidLine (decodeKey : Bytes → Option PublicKey) (line : Bytes) : Prop :=
  10 ∉ line ∧ parseLine decodeKey line = none

instance (decodeKey : Bytes → Option PublicKey) (key : PublicKey) (line : Bytes) :
    Decidable (ValidLine decodeKey key line) :=
  inferInstanceAs (Decidable (10 ∉ line ∧ parseLine decodeKey line = some key))

instance (decodeKey : Bytes → Option PublicKey) (line : Bytes) :
    Decidable (InvalidLine decodeKey line) :=
  inferInstanceAs (Decidable (10 ∉ line ∧ parseLine decodeKey line = none))

/-- The buffer made of the lines, each followed by a newline. -/
def joinLines : List Bytes → Bytes
  | [] => []
  | line :: more => line ++ 10 :: joinLines more

/-- A stand-in for base64 decoding followed by `ssh.ParsePublicKey`, at which
the embedding is evaluated on concrete buffers: a field is a key when it is
a non-empty run of capital letters, and the marshaled form of the key is the
field as it stands. -/
def sampleDecodeKey (field : Bytes) : Option PublicKey :=
  if field ≠ [] ∧ field.all (fun b => 65 ≤ b && b ≤ 90) = true then some ⟨"ssh-rsa", field⟩
  else none

/-- The library parser over the sample key decoding. -/
def sampleParseAuthorizedKey (input : Bytes) : ParsedAuthorizedKey :=
  ParseAuthorizedKey sampleDecodeKey input

/-- Modelled from the spec: `ssh.ParsePrivateKey` belongs to
`golang.org/x/crypto/ssh` and is not in `server.go`; the spec describes its
input as "one PEM-style private key".  Here a buffer is well formed when it
starts with `-----BEGIN `, and the key it holds is named by the bytes after
that.  It is the parser at which the embedding is evaluated on concrete
buffers. -/
def sampleParsePrivateKey (pemBytes : Bytes) : Except GoError Signer :=
  if pemBytes.take 11 = ascii "-----BEGIN " then
    .ok ⟨⟨"ssh-rsa", pemBytes.drop 11⟩⟩
  else
    .error (.errorString "ssh: no key found")

/-- The two sample parsers together. -/
def sampleSSH : SSH :=
  { ParseAuthorizedKey := sampleParseAuthorizedKey
    ParsePrivateKey := sampleParsePrivateKey }

/-- A network in which port 22 is taken, an address with a negative port
is refused, and every other address can be bound. -/
def sampleNet : Net :=
  { Listen := fun network address =>
      if address = ":22" then .error (.errorString "bind: address already in use")
      else if address.data.take 2 = [':', '-'] then .error (.errorString "invalid port")
      else .ok ⟨network, address⟩ }

/-- The record `ssh-rsa A`. -/
def validA : Bytes := ascii "ssh-rsa A\n"

/-- The record `ssh-rsa B`. -/
def validB : Bytes := ascii "ssh-rsa B\n"

/-- A line that is no record. -/
def garbage : Bytes := ascii "??\n"

/-! ## `VerifyPublicKey` -/

/-- C1: `VerifyPublicKey` succeeds, with a `Permissions` value that has no
critical options and no extensions and with a nil error, exactly when the
marshaled bytes of the key are a key of `AuthorizedKeys`; for every other key
it returns a nil `Permissions` and the error "No valid key found.". -/
theorem VerifyPublicKey_iff_authorized (s : Server) (conn : ConnMetadata) (key : PublicKey) :
    (((VerifyPublicKey s conn key).permissions = some ⟨[], []⟩ ∧
        (VerifyPublicKey s conn key).err = none) ↔ key.Marshal ∈ s.AuthorizedKeys) ∧
    (key.Marshal ∉ s.AuthorizedKeys →
      (VerifyPublicKey s conn key).permissions = none ∧
      (VerifyPublicKey s conn key).err = some (.errorString "No valid key found.")) := by
  by_cases h : key.Marshal ∈ s.AuthorizedKeys
  · have hl : (s.AuthorizedKeys.lookup key.Marshal).isSome = true := Finmap.lookup_isSome.mpr h
    simp [VerifyPublicKey, hl, h]
  · have hl : (s.AuthorizedKeys.lookup key.Marshal).isSome = false := by
      rw [Finmap.lookup_eq_none.mpr h]; rfl
    simp [VerifyPublicKey, hl, h]

/-- C1 at concrete keys: with `[1, 2, 3]` authorized, the key `[1, 2, 4]`,
which differs in one byte, is rejected, and `[1, 2, 3]` is accepted. -/
theorem VerifyPublicKey_iff_authorized_witness :
    ([1, 2, 4] : Bytes) ∉ (Finmap.singleton ([1, 2, 3] : Bytes) true : KeyMap) ∧
    (VerifyPublicKey { NewServer with AuthorizedKeys := Finmap.singleton [1, 2, 3] true }
        ⟨"root", [], [], [], "10.0.0.1:5000", "10.0.0.2:22"⟩ ⟨"ssh-rsa", [1, 2, 4]⟩).permissions
      = none ∧
    (VerifyPublicKey { NewServer with AuthorizedKeys := Finmap.singleton [1, 2, 3] true }
        ⟨"root", [], [], [], "10.0.0.1:5000", "10.0.0.2:22"⟩ ⟨"ssh-rsa", [1, 2, 4]⟩).err
      = some (.errorString "No valid key found.") :=
  ⟨by decide,
   (VerifyPublicKey_iff_authorized
      { NewServer with AuthorizedKeys := Finmap.singleton [1, 2, 3] true }
      ⟨"root", [], [], [], "10.0.0.1:5000", "10.0.0.2:22"⟩ ⟨"ssh-rsa", [1, 2, 4]⟩).2 (by decide)⟩

/-- C8: `VerifyPublicKey` gives back the server it was called on, accepted or
not, and two calls whose servers hold the same `AuthorizedKeys` return the
same permissions and error for a key, whatever the connection metadata and
the other fields of the server. -/
theorem VerifyPublicKey_frame (s s' : Server) (conn conn' : ConnMetadata) (key : PublicKey)
    (h : s.AuthorizedKeys = s'.AuthorizedKeys) :
    (VerifyPublicKey s conn key).server = s ∧
    (VerifyPublicKey s conn key).permissions = (VerifyPublicKey s' conn' key).permissions ∧
    (VerifyPublicKey s conn key).err = (VerifyPublicKey s' conn' key).err := by
  simp only [VerifyPublicKey, h]
  by_cases hl : (Finmap.lookup key.Marshal s'.AuthorizedKeys).isSome = false <;> simp [hl]

/-- C8 at two servers that differ in their socket and host keys, and two
different connections. -/
theorem VerifyPublicKey_frame_witness :
    (VerifyPublicKey { NewServer with AuthorizedKeys := Finmap.singleton [1, 2, 3] true }
        ⟨"root", [], [], [], "10.0.0.1:5000", "10.0.0.2:22"⟩ ⟨"ssh-rsa", [1, 2, 3]⟩).server
      = { NewServer with AuthorizedKeys := Finmap.singleton [1, 2, 3] true } ∧
    (VerifyPublicKey { NewServer with AuthorizedKeys := Finmap.singleton [1, 2, 3] true }
        ⟨"root", [], [], [], "10.0.0.1:5000", "10.0.0.2:22"⟩ ⟨"ssh-rsa", [1, 2, 3]⟩).permissions
      = (VerifyPublicKey
          { ServerConfig := ⟨[⟨⟨"ssh-rsa", [9]⟩⟩], none⟩
            Socket := some ⟨"tcp", ":2222"⟩
            AuthorizedKeys := Finmap.singleton [1, 2, 3] true }
          ⟨"guest", [7], [], [], "10.9.9.9:1", "10.0.0.2:2222"⟩ ⟨"ssh-rsa", [1, 2, 3]⟩).permissions ∧
    (VerifyPublicKey { NewServer with AuthorizedKeys := Finmap.singleton [1, 2, 3] true }
        ⟨"root", [], [], [], "10.0.0.1:5000", "10.0.0.2:22"⟩ ⟨"ssh-rsa", [1, 2, 3]⟩).err
      = (VerifyPublicKey
          { ServerConfig := ⟨[⟨⟨"ssh-rsa", [9]⟩⟩], none⟩
            Socket := some ⟨"tcp", ":2222"⟩
            AuthorizedKeys := Finmap.singleton [1, 2, 3] true }
          ⟨"guest", [7], [], [], "10.9.9.9:1", "10.0.0.2:2222"⟩ ⟨"ssh-rsa", [1, 2, 3]⟩).err :=
  VerifyPublicKey_frame _ _ _ _ _ rfl

/-! ## `AddHostkey` -/

theorem addHostKeyLoop_of_not_any (ks : List Signer) (key : Signer)
    (h : ks.any (fun k => decide (k.PublicKey.KeyType = key.PublicKey.KeyType)) = false) :
    addHostKeyLoop ks key = ks ++ [key] := by
  induction ks with
  | nil => rfl
  | cons k ks ih =>
    simp only [List.any_cons, Bool.or_eq_false_iff, decide_eq_false_iff_not] at h
    simp only [addHostKeyLoop, h.1, if_false, ih h.2, List.cons_append]

theorem length_addHostKeyLoop_of_any (ks : List Signer) (key : Signer)
    (h : ks.any (fun k => decide (k.PublicKey.KeyType = key.PublicKey.KeyType)) = true) :
    (addHostKeyLoop ks key).length = ks.length ∧ key ∈ addHostKeyLoop ks key := by
  induction ks with
  | nil => simp at h
  | cons k ks ih =>
    by_cases hk : k.PublicKey.KeyType = key.PublicKey.KeyType
    · simp [addHostKeyLoop, hk]
    · have hrest : ks.any (fun k => decide (k.PublicKey.KeyType = key.PublicKey.KeyType)) = true := by
        simpa [hk] using h
      obtain ⟨hl, hm⟩ := ih hrest
      simp [addHostKeyLoop, hk, hl, hm]

/-- C4, as stated, fails on a server that holds a host key of the type of
the new one: the buffer parses, and the server still holds one host key, the
new one. -/
theorem AddHostkey_same_type_keeps_count :
    sampleSSH.ParsePrivateKey (ascii "-----BEGIN y") = .ok ⟨⟨"ssh-rsa", ascii "y"⟩⟩ ∧
    (AddHostkey sampleSSH (AddHostkey sampleSSH NewServer (ascii "-----BEGIN x"))
        (ascii "-----BEGIN x")).ServerConfig.hostKeys.length = 1 ∧
    (AddHostkey sampleSSH
        { NewServer with ServerConfig := ⟨[⟨⟨"ssh-rsa", ascii "x"⟩⟩], some .VerifyPublicKey⟩ }
        (ascii "-----BEGIN y")).ServerConfig.hostKeys = [⟨⟨"ssh-rsa", ascii "y"⟩⟩] :=
  ⟨rfl, by decide, by decide⟩

/-- C4, amended: when the buffer parses as a private key, `AddHostkey`
leaves one host key more in `ServerConfig` (the parsed key, last) if no host
key held has the type of the parsed one; if one has, the number of host keys
is unchanged and the parsed key is among them.  Nothing else changes.  When
the buffer does not parse, the server is left as it was.  Either way the
caller gets no error: the method has no result. -/
theorem AddHostkey_replaces_or_appends (ssh : SSH) (s : Server) (keyData : Bytes) :
    match ssh.ParsePrivateKey keyData with
    | .ok key =>
      (if s.ServerConfig.hostKeys.any
            (fun k => decide (k.PublicKey.KeyType = key.PublicKey.KeyType)) = true then
          (AddHostkey ssh s keyData).ServerConfig.hostKeys.length
              = s.ServerConfig.hostKeys.length ∧
            key ∈ (AddHostkey ssh s keyData).ServerConfig.hostKeys
        else
          (AddHostkey ssh s keyData).ServerConfig.hostKeys.length
              = s.ServerConfig.hostKeys.length + 1 ∧
            (AddHostkey ssh s keyData).ServerConfig.hostKeys
              = s.ServerConfig.hostKeys ++ [key]) ∧
        (AddHostkey ssh s keyData).ServerConfig.PublicKeyCallback
          = s.ServerConfig.PublicKeyCallback ∧
        (AddHostkey ssh s keyData).AuthorizedKeys = s.AuthorizedKeys ∧
        (AddHostkey ssh s keyData).Socket = s.Socket
    | .error _ => AddHostkey ssh s keyData = s := by
  unfold AddHostkey
  cases ssh.ParsePrivateKey keyData with
  | error e => simp
  | ok key =>
    refine ⟨?_, rfl, rfl, rfl⟩
    by_cases h : s.ServerConfig.hostKeys.any
        (fun k => decide (k.PublicKey.KeyType = key.PublicKey.KeyType)) = true
    · rw [if_pos h]
      exact length_addHostKeyLoop_of_any _ _ h
    · have h' : s.ServerConfig.hostKeys.any
          (fun k => decide (k.PublicKey.KeyType = key.PublicKey.KeyType)) = false := by
        simpa using h
      rw [if_neg h]
      show (addHostKeyLoop s.ServerConfig.hostKeys key).length = _ ∧
        addHostKeyLoop s.ServerConfig.hostKeys key = _
      rw [addHostKeyLoop_of_not_any _ _ h']
      simp

/-- C4, amended, at a new server: the first key is added; a second key of
the same type leaves one host key. -/
theorem AddHostkey_replaces_or_appends_witness :
    (AddHostkey sampleSSH NewServer (ascii "-----BEGIN x")).ServerConfig.hostKeys.length
        = NewServer.ServerConfig.hostKeys.length + 1 ∧
    AddHostkey sampleSSH NewServer (ascii "no key") = NewServer := by
  exact ⟨(AddHostkey_replaces_or_appends sampleSSH NewServer (ascii "-----BEGIN x")).1.1,
    AddHostkey_replaces_or_appends sampleSSH NewServer (ascii "no key")⟩

/-! ## `ListenAndServe` -/

theorem handlers_append (a b : List Effect) : handlers (a ++ b) = handlers a ++ handlers b := by
  simp [handlers, List.filterMap_append]

/-- One iteration keeps the loop running on the same server: it adds
effects that hold no `Accept`, then the next `Accept`; a handler is started
exactly when the handshake succeeded, and it is the last effect before the
next `Accept`. -/
theorem acceptLoopBody_bound (s : Server) (t : List Effect) (o : Outcome) :
    ∃ d, acceptLoopBody s t o = .Bound s (t ++ d ++ [.Accept]) ∧
      d.count .Accept = 0 ∧ handlers d = authenticated [o] ∧
      ∀ conn sConn, o = .handshakeOk conn sConn →
        ∃ d', d = d' ++ [.GoHandleConn sConn] ∧ handlers d' = [] := by
  cases o with
  | acceptError err =>
    exact ⟨[.Debug ⟨"Unable to accept: %v", [err.render]⟩], by simp [acceptLoopBody],
      by simp, by simp [handlers, authenticated], by intro _ _ h; cases h⟩
  | handshakeError conn err =>
    by_cases he : err = .EOF
    · exact ⟨[.Debug ⟨"Accepted connection from: %s", [conn.RemoteAddr]⟩, .NewServerConn conn,
          .Debug ⟨"Connection closed by remote host.", []⟩],
        by simp [acceptLoopBody, he], by simp, by simp [handlers, authenticated],
        by intro _ _ h; cases h⟩
    · exact ⟨[.Debug ⟨"Accepted connection from: %s", [conn.RemoteAddr]⟩, .NewServerConn conn,
          .Debug ⟨"Unable to negotiate SSH: %v", [err.render]⟩],
        by simp [acceptLoopBody, he], by simp, by simp [handlers, authenticated],
        by intro _ _ h; cases h⟩
  | handshakeOk conn sConn =>
    refine ⟨[.Debug ⟨"Accepted connection from: %s", [conn.RemoteAddr]⟩, .NewServerConn conn,
        .Debug ⟨"Authenticated client from: %s", [sConn.conn.RemoteAddr]⟩,
        .GoHandleConn sConn], by simp [acceptLoopBody], by simp,
      by simp [handlers, authenticated], ?_⟩
    intro conn' sConn' h
    cases h
    exact ⟨[.Debug ⟨"Accepted connection from: %s", [conn.RemoteAddr]⟩, .NewServerConn conn,
        .Debug ⟨"Authenticated client from: %s", [sConn.conn.RemoteAddr]⟩], by simp,
      by simp [handlers]⟩

theorem authenticated_cons (o : Outcome) (os : List Outcome) :
    authenticated (o :: os) = authenticated [o] ++ authenticated os := by
  cases o <;> simp [authenticated]

/-- The accept loop, fed any outcomes, is still bound on the same server;
it has added one `Accept` per outcome, the last effect being an `Accept`, and
has started the handlers of the authenticated connections. -/
theorem acceptLoop_bound (s : Server) (outcomes : List Outcome) (t : List Effect) :
    ∃ d, outcomes.foldl acceptLoopStep (.Bound s t) = .Bound s (t ++ d) ∧
      d.count .Accept = outcomes.length ∧ handlers d = authenticated outcomes ∧
      (outcomes ≠ [] → ∃ d0, d = d0 ++ [.Accept]) := by
  induction outcomes generalizing t with
  | nil => exact ⟨[], by simp, by simp, by simp [handlers, authenticated], by simp⟩
  | cons o os ih =>
    obtain ⟨d1, hb, hc1, hh1, -⟩ := acceptLoopBody_bound s t o
    obtain ⟨d2, hf, hc2, hh2, hlast⟩ := ih (t ++ d1 ++ [.Accept])
    refine ⟨d1 ++ [.Accept] ++ d2, ?_, ?_, ?_, ?_⟩
    · rw [List.foldl_cons, acceptLoopStep, hb, hf]
      simp only [List.append_assoc]
    · simp only [List.count_append, hc1, hc2, List.length_cons]
      simp
      omega
    · have hA : handlers [Effect.Accept] = [] := rfl
      rw [handlers_append, handlers_append, hh1, hh2, hA, authenticated_cons o os]
      simp
    · intro _
      by_cases hos : os = []
      · subst hos
        have hd2 : d2 = [] := by
          have := hf
          simp only [List.foldl_nil, ServeState.Bound.injEq, true_and] at this
          simpa using this.symm
        exact ⟨d1, by simp [hd2]⟩
      · obtain ⟨d0, hd0⟩ := hlast hos
        exact ⟨d1 ++ [.Accept] ++ d0, by simp [hd0]⟩

/-- With the listener bound, `ListenAndServe` is the accept loop started on
the server that holds the new socket. -/
theorem ListenAndServe_of_bound (net : Net) (s : Server) (port : Int) (outcomes : List Outcome)
    (sock : Listener) (hbind : net.Listen "tcp" (":" ++ Itoa (int16 port)) = .ok sock) :
    ListenAndServe net s port outcomes =
      outcomes.foldl acceptLoopStep
        (.Bound { s with Socket := some sock }
          [.Listen "tcp" (":" ++ Itoa (int16 port)),
           .Debug ⟨"Listening on %s", [":" ++ Itoa (int16 port)]⟩, .Accept]) := by
  simp only [ListenAndServe, hbind]

/-- C5: `ListenAndServe` returns an error exactly when `net.Listen` fails,
and what it returns is that error; the server is then as it was before the
call (its `Socket` has not been assigned), and all the call has done is the
`Listen` and one debug line: no `Accept`, no handler. -/
theorem ListenAndServe_returns_iff_bind_fails (net : Net) (s : Server) (port : Int)
    (outcomes : List Outcome) (err : GoError) (s' : Server) (trace : List Effect) :
    ListenAndServe net s port outcomes = .Returned err s' trace ↔
      net.Listen "tcp" (":" ++ Itoa (int16 port)) = .error err ∧ s' = s ∧
      trace = [.Listen "tcp" (":" ++ Itoa (int16 port)),
               .Debug ⟨"Unable to listen: %v", [err.render]⟩] := by
  cases hl : net.Listen "tcp" (":" ++ Itoa (int16 port)) with
  | error e =>
    simp only [ListenAndServe, hl, ServeState.Returned.injEq, Except.error.injEq]
    constructor
    · rintro ⟨rfl, rfl, rfl⟩
      exact ⟨rfl, rfl, rfl⟩
    · rintro ⟨rfl, rfl, rfl⟩
      exact ⟨rfl, rfl, rfl⟩
  | ok sock =>
    rw [ListenAndServe_of_bound net s port outcomes sock hl]
    obtain ⟨d, hd, -⟩ := acceptLoop_bound { s with Socket := some sock } outcomes
      [.Listen "tcp" (":" ++ Itoa (int16 port)),
       .Debug ⟨"Listening on %s", [":" ++ Itoa (int16 port)]⟩, .Accept]
    rw [hd]
    simp

/-- C5 at a taken port: binding port 22 of `sampleNet` fails, and the call
on a new server returns the bind error with the socket still unset, whatever
connections are waiting. -/
theorem ListenAndServe_returns_iff_bind_fails_witness :
    ListenAndServe sampleNet NewServer 22 [.handshakeOk ⟨1, "10.0.0.1:5000"⟩ ⟨⟨1, "10.0.0.1:5000"⟩⟩]
      = .Returned (.errorString "bind: address already in use") NewServer
          [.Listen "tcp" ":22",
           .Debug ⟨"Unable to listen: %v", ["bind: address already in use"]⟩] ∧
    NewServer.Socket = none :=
  ⟨(ListenAndServe_returns_iff_bind_fails sampleNet NewServer 22 _ _ _ _).mpr
      ⟨rfl, rfl, rfl⟩, rfl⟩

/-- C6: once `net.Listen` has succeeded, whatever finite sequence of
outcomes the loop is fed (accept errors, handshakes ended by EOF or by
another error, successes), `ListenAndServe` has not returned: it is bound on
the server holding the socket, the last thing it did is to call `Accept`
again, and it has called `Accept` once more than it has been given
outcomes. -/
theorem ListenAndServe_stays_bound (net : Net) (s : Server) (port : Int)
    (outcomes : List Outcome) (sock : Listener)
    (hbind : net.Listen "tcp" (":" ++ Itoa (int16 port)) = .ok sock) :
    ∃ trace, ListenAndServe net s port outcomes
        = .Bound { s with Socket := some sock } (trace ++ [.Accept]) ∧
      (trace ++ [.Accept]).count .Accept = outcomes.length + 1 := by
  rw [ListenAndServe_of_bound net s port outcomes sock hbind]
  obtain ⟨d, hd, hc, -, hlast⟩ := acceptLoop_bound { s with Socket := some sock } outcomes
    [.Listen "tcp" (":" ++ Itoa (int16 port)),
     .Debug ⟨"Listening on %s", [":" ++ Itoa (int16 port)]⟩, .Accept]
  rw [hd]
  by_cases ho : outcomes = []
  · subst ho
    have hd0 : d = [] := by
      simp only [List.foldl_nil, ServeState.Bound.injEq, true_and] at hd
      simpa using hd.symm
    subst hd0
    exact ⟨[.Listen "tcp" (":" ++ Itoa (int16 port)),
      .Debug ⟨"Listening on %s", [":" ++ Itoa (int16 port)]⟩], by simp, by simp⟩
  · obtain ⟨d0, rfl⟩ := hlast ho
    refine ⟨[.Listen "tcp" (":" ++ Itoa (int16 port)),
      .Debug ⟨"Listening on %s", [":" ++ Itoa (int16 port)]⟩, .Accept] ++ d0, by simp, ?_⟩
    simp only [List.count_append] at hc ⊢
    simp at hc ⊢
    omega

/-- C6 at the four kinds of outcome in a row: an accept error, a handshake
ended by EOF, a handshake ended by another error, a success. -/
theorem ListenAndServe_stays_bound_witness :
    ∃ trace,
      ListenAndServe sampleNet NewServer 2222
          [.acceptError (.errorString "accept: too many open files"),
           .handshakeError ⟨1, "10.0.0.1:5000"⟩ .EOF,
           .handshakeError ⟨2, "10.0.0.2:5000"⟩ (.errorString "ssh: no auth passed yet"),
           .handshakeOk ⟨3, "10.0.0.3:5000"⟩ ⟨⟨3, "10.0.0.3:5000"⟩⟩]
        = .Bound { NewServer with Socket := some ⟨"tcp", ":2222"⟩ } (trace ++ [.Accept]) ∧
      (trace ++ [.Accept]).count .Accept = 4 + 1 :=
  ListenAndServe_stays_bound sampleNet NewServer 2222
    [.acceptError (.errorString "accept: too many open files"),
     .handshakeError ⟨1, "10.0.0.1:5000"⟩ .EOF,
     .handshakeError ⟨2, "10.0.0.2:5000"⟩ (.errorString "ssh: no auth passed yet"),
     .handshakeOk ⟨3, "10.0.0.3:5000"⟩ ⟨⟨3, "10.0.0.3:5000"⟩⟩]
    ⟨"tcp", ":2222"⟩ rfl

/-- C7: once `net.Listen` has succeeded, the handlers started by the loop
are the connections of the iterations in which `Accept` and the handshake
both succeeded, each once and in that order (none for a failed iteration);
and in one more iteration of that kind the loop starts the handler and the
next thing it does is to call `Accept`. -/
theorem ListenAndServe_spawns_handlers (net : Net) (s : Server) (port : Int)
    (outcomes : List Outcome) (sock : Listener)
    (hbind : net.Listen "tcp" (":" ++ Itoa (int16 port)) = .ok sock) :
    ∃ trace, ListenAndServe net s port outcomes
        = .Bound { s with Socket := some sock } trace ∧
      handlers trace = authenticated outcomes ∧
      ∀ conn sConn, ∃ d,
        ListenAndServe net s port (outcomes ++ [.handshakeOk conn sConn])
          = .Bound { s with Socket := some sock } (trace ++ d ++ [.GoHandleConn sConn, .Accept]) ∧
        handlers d = [] := by
  obtain ⟨d, hd, -, hh, -⟩ := acceptLoop_bound { s with Socket := some sock } outcomes
    [.Listen "tcp" (":" ++ Itoa (int16 port)),
     .Debug ⟨"Listening on %s", [":" ++ Itoa (int16 port)]⟩, .Accept]
  refine ⟨[.Listen "tcp" (":" ++ Itoa (int16 port)),
     .Debug ⟨"Listening on %s", [":" ++ Itoa (int16 port)]⟩, .Accept] ++ d, ?_, ?_, ?_⟩
  · rw [ListenAndServe_of_bound net s port outcomes sock hbind, hd]
  · rw [handlers_append, hh]
    simp [handlers]
  · intro conn sConn
    rw [ListenAndServe_of_bound net s port _ sock hbind, List.foldl_append, hd]
    obtain ⟨d1, hb, -, -, hlast⟩ := acceptLoopBody_bound { s with Socket := some sock }
      ([.Listen "tcp" (":" ++ Itoa (int16 port)),
        .Debug ⟨"Listening on %s", [":" ++ Itoa (int16 port)]⟩, .Accept] ++ d)
      (.handshakeOk conn sConn)
    obtain ⟨d', rfl, hd'⟩ := hlast conn sConn rfl
    refine ⟨d', ?_, hd'⟩
    simp only [List.foldl_cons, List.foldl_nil, acceptLoopStep, hb]
    simp

/-- C7 at an accept error, a failed handshake and two successes: the
handlers are those of the two successes, in order. -/
theorem ListenAndServe_spawns_handlers_witness :
    ∃ trace,
      ListenAndServe sampleNet NewServer 2222
          [.acceptError (.errorString "accept: too many open files"),
           .handshakeOk ⟨1, "10.0.0.1:5000"⟩ ⟨⟨1, "10.0.0.1:5000"⟩⟩,
           .handshakeError ⟨2, "10.0.0.2:5000"⟩ (.errorString "ssh: no auth passed yet"),
           .handshakeOk ⟨3, "10.0.0.3:5000"⟩ ⟨⟨3, "10.0.0.3:5000"⟩⟩]
        = .Bound { NewServer with Socket := some ⟨"tcp", ":2222"⟩ } trace ∧
      handlers trace = [⟨⟨1, "10.0.0.1:5000"⟩⟩, ⟨⟨3, "10.0.0.3:5000"⟩⟩] := by
  obtain ⟨trace, h1, h2, -⟩ := ListenAndServe_spawns_handlers sampleNet NewServer 2222
    [.acceptError (.errorString "accept: too many open files"),
     .handshakeOk ⟨1, "10.0.0.1:5000"⟩ ⟨⟨1, "10.0.0.1:5000"⟩⟩,
     .handshakeError ⟨2, "10.0.0.2:5000"⟩ (.errorString "ssh: no auth passed yet"),
     .handshakeOk ⟨3, "10.0.0.3:5000"⟩ ⟨⟨3, "10.0.0.3:5000"⟩⟩]
    ⟨"tcp", ":2222"⟩ rfl
  exact ⟨trace, h1, h2⟩

/-- The first thing `ListenAndServe` does is `net.Listen("tcp", sPort)`. -/
theorem ListenAndServe_trace_head (net : Net) (s : Server) (port : Int)
    (outcomes : List Outcome) :
    ∃ rest, (ListenAndServe net s port outcomes).trace
      = .Listen "tcp" (":" ++ Itoa (int16 port)) :: rest := by
  cases hl : net.Listen "tcp" (":" ++ Itoa (int16 port)) with
  | error e =>
    exact ⟨[.Debug ⟨"Unable to listen: %v", [e.render]⟩],
      by simp only [ListenAndServe, hl, ServeState.trace]⟩
  | ok sock =>
    rw [ListenAndServe_of_bound net s port outcomes sock hl]
    obtain ⟨d, hd, -⟩ := acceptLoop_bound { s with Socket := some sock } outcomes
      [.Listen "tcp" (":" ++ Itoa (int16 port)),
       .Debug ⟨"Listening on %s", [":" ++ Itoa (int16 port)]⟩, .Accept]
    rw [hd]
    exact ⟨[.Debug ⟨"Listening on %s", [":" ++ Itoa (int16 port)]⟩, .Accept] ++ d,
      by simp only [ServeState.trace, List.cons_append, List.nil_append]⟩

/-- C9, as stated, fails at port 40000: the `int16` parameter holds
`-25536`, the address passed to `net.Listen` is `:-25536`, not `:40000`, and
on a network that refuses it the call returns the bind error. -/
theorem ListenAndServe_port_40000 :
    int16 40000 = -25536 ∧
    ListenAndServe sampleNet NewServer 40000 []
      = .Returned (.errorString "invalid port") NewServer
          [.Listen "tcp" ":-25536", .Debug ⟨"Unable to listen: %v", ["invalid port"]⟩] ∧
    (":-25536" : String) ≠ ":" ++ Nat.repr 40000 := by
  decide

/-- C9, amended: for a port number `p` in `0..32767`, the address that
`ListenAndServe` passes to `net.Listen` is `":"` followed by the decimal
digits of `p`; a number `p` in `32768..65535` reaches the `int16` parameter
as `p - 65536`, and the address is `":-"` followed by the decimal digits of
`65536 - p`. -/
theorem ListenAndServe_listen_address (net : Net) (s : Server) (p : Int)
    (outcomes : List Outcome) (h0 : 0 ≤ p) (h1 : p ≤ 65535) :
    int16 p = (if p ≤ 32767 then p else p - 65536) ∧
    ∃ rest, (ListenAndServe net s p outcomes).trace
      = .Listen "tcp"
          (":" ++ if p ≤ 32767 then Nat.repr p.toNat else "-" ++ Nat.repr (65536 - p).toNat)
        :: rest := by
  have hwrap : int16 p = (if p ≤ 32767 then p else p - 65536) := by
    unfold int16
    split <;> omega
  refine ⟨hwrap, ?_⟩
  obtain ⟨rest, hrest⟩ := ListenAndServe_trace_head net s p outcomes
  refine ⟨rest, ?_⟩
  rw [hrest, hwrap]
  by_cases hp : p ≤ 32767
  · have hneg : ¬ p < 0 := by omega
    simp only [hp, if_true, Itoa, hneg, if_false]
  · have hneg : p - 65536 < 0 := by omega
    have hsub : -(p - 65536) = 65536 - p := by omega
    simp only [hp, if_false, Itoa, hneg, if_true, hsub]

/-- C9, amended, at ports 2222 and 40000. -/
theorem ListenAndServe_listen_address_witness :
    (int16 2222 = 2222 ∧
      ∃ rest, (ListenAndServe sampleNet NewServer 2222 []).trace
        = .Listen "tcp" ":2222" :: rest) ∧
    (int16 40000 = -25536 ∧
      ∃ rest, (ListenAndServe sampleNet NewServer 40000 []).trace
        = .Listen "tcp" ":-25536" :: rest) :=
  ⟨ListenAndServe_listen_address sampleNet NewServer 2222 [] (by decide) (by decide),
   ListenAndServe_listen_address sampleNet NewServer 40000 [] (by decide) (by decide)⟩

/-! ## `AddAuthorizedKeys` -/

theorem lookup_insertKeys (keys : List PublicKey) (m : KeyMap) (b : Bytes) :
    (insertKeys m keys).lookup b
      = if b ∈ keys.map (fun key => key.Marshal) then some true else m.lookup b := by
  induction keys generalizing m with
  | nil => simp [insertKeys]
  | cons key keys ih =>
    have hstep : insertKeys m (key :: keys) = insertKeys (m.insert key.Marshal true) keys := rfl
    rw [hstep, ih]
    by_cases hb : b = key.Marshal
    · subst hb
      simp [Finmap.lookup_insert]
    · have hne : ¬ key.Marshal = b := fun h => hb h.symm
      simp only [List.map_cons, List.mem_cons, hb, false_or]
      rw [Finmap.lookup_insert_of_ne m hb]

theorem keys_insertKeys (keys : List PublicKey) (m : KeyMap) :
    (insertKeys m keys).keys = m.keys ∪ (keys.map (fun key => key.Marshal)).toFinset := by
  ext b
  rw [Finmap.mem_keys, ← Finmap.lookup_isSome, lookup_insertKeys, Finset.mem_union,
    Finmap.mem_keys, ← Finmap.lookup_isSome, List.mem_toFinset]
  by_cases hb : b ∈ keys.map (fun key => key.Marshal) <;> simp [hb]

theorem insertKeys_insertKeys (keys : List PublicKey) (m : KeyMap) :
    insertKeys (insertKeys m keys) keys = insertKeys m keys := by
  apply Finmap.ext_lookup
  intro b
  rw [lookup_insertKeys, lookup_insertKeys]
  by_cases hb : b ∈ keys.map (fun key => key.Marshal) <;> simp [hb]

/-- The loop run over valid records: one iteration per record, each
inserting the key of its record. -/
theorem addAuthorizedKeysLoop_records (ssh : SSH) (keys : List PublicKey) :
    ∀ (buf rest : Bytes), ParsesRecords ssh keys buf rest →
      ∀ (fuel : Nat) (st : AddKeysResult),
        addAuthorizedKeysLoop ssh (fuel + keys.length) st buf
          = addAuthorizedKeysLoop ssh fuel
              { server := { st.server with
                  AuthorizedKeys := insertKeys st.server.AuthorizedKeys keys }
                debug := st.debug
                parses := st.parses + keys.length }
              rest := by
  induction keys with
  | nil =>
    intro buf rest h fuel st
    have hb : buf = rest := h
    subst hb
    rfl
  | cons key keys ih =>
    intro buf rest h fuel st
    obtain ⟨hne, mid, hparse, hrest⟩ := h
    have hlen : buf.length > 0 := List.length_pos.mpr hne
    have hfuel : fuel + (key :: keys).length = (fuel + keys.length) + 1 := by
      simp only [List.length_cons, Nat.add_assoc]
    rw [hfuel, addAuthorizedKeysLoop]
    simp only [hlen, if_true, hparse]
    rw [ih mid rest hrest]
    have hstep : insertKeys st.server.AuthorizedKeys (key :: keys)
        = insertKeys (st.server.AuthorizedKeys.insert key.Marshal true) keys := rfl
    rw [hstep]
    simp only [List.length_cons, Nat.add_assoc, Nat.add_comm 1]

/-- `AddAuthorizedKeys` on valid records followed by a rest on which the
parser fails. -/
theorem AddAuthorizedKeys_records_then_fail (ssh : SSH) (s : Server) (keys : List PublicKey)
    (buf bad tail : Bytes) (err : GoError) (fuel : Nat)
    (hvalid : ParsesRecords ssh keys buf bad) (hbad : bad ≠ [])
    (hfail : ssh.ParseAuthorizedKey bad = .fail tail err) (hfuel : keys.length + 1 ≤ fuel) :
    AddAuthorizedKeys ssh fuel s buf
      = some
          { server := { s with AuthorizedKeys := insertKeys s.AuthorizedKeys keys }
            debug := [⟨"Error parsing key: %v", [err.render]⟩]
            parses := keys.length + 1 } := by
  obtain ⟨k, rfl⟩ : ∃ k, fuel = (k + 1) + keys.length := ⟨fuel - (keys.length + 1), by omega⟩
  have hlen : bad.length > 0 := List.length_pos.mpr hbad
  rw [AddAuthorizedKeys, addAuthorizedKeysLoop_records ssh keys buf bad hvalid,
    addAuthorizedKeysLoop]
  simp only [hlen, if_true, hfail, List.nil_append, Nat.zero_add]

/-- `AddAuthorizedKeys` on valid records and nothing else. -/
theorem AddAuthorizedKeys_records (ssh : SSH) (s : Server) (keys : List PublicKey)
    (buf : Bytes) (fuel : Nat)
    (hvalid : ParsesRecords ssh keys buf []) (hfuel : keys.length + 1 ≤ fuel) :
    AddAuthorizedKeys ssh fuel s buf
      = some
          { server := { s with AuthorizedKeys := insertKeys s.AuthorizedKeys keys }
            debug := []
            parses := keys.length } := by
  obtain ⟨k, rfl⟩ : ∃ k, fuel = (k + 1) + keys.length := ⟨fuel - (keys.length + 1), by omega⟩
  rw [AddAuthorizedKeys, addAuthorizedKeysLoop_records ssh keys buf [] hvalid,
    addAuthorizedKeysLoop]
  simp

/-! ## The library parser -/

theorem takeWhile_line (line rest : Bytes) (h : 10 ∉ line) :
    (line ++ 10 :: rest).takeWhile (fun b => b != 10) = line := by
  induction line with
  | nil => simp
  | cons b bs ih =>
    have hb : b ≠ 10 := fun hb => h (by simp [hb])
    have hbs : 10 ∉ bs := fun hbs => h (by simp [hbs])
    simp [List.takeWhile_cons, hb, ih hbs]

theorem dropWhile_line (line rest : Bytes) (h : 10 ∉ line) :
    (line ++ 10 :: rest).dropWhile (fun b => b != 10) = 10 :: rest := by
  induction line with
  | nil => simp
  | cons b bs ih =>
    have hb : b ≠ 10 := fun hb => h (by simp [hb])
    have hbs : 10 ∉ bs := fun hbs => h (by simp [hbs])
    simp [List.dropWhile_cons, hb, ih hbs]

/-- What the library parser leaves after a success is shorter than its
input, and after a failure it is empty. -/
theorem parseAuthorizedKeyLoop_rest (decodeKey : Bytes → Option PublicKey) (fuel : Nat) :
    ∀ input : Bytes,
      (∀ key rest, parseAuthorizedKeyLoop decodeKey fuel input = .ok key rest →
        rest.length < input.length) ∧
      (∀ rest err, parseAuthorizedKeyLoop decodeKey fuel input = .fail rest err → rest = []) := by
  induction fuel with
  | zero =>
    intro input
    constructor
    · intro key rest h
      simp [parseAuthorizedKeyLoop] at h
    · intro rest err h
      simp only [parseAuthorizedKeyLoop, ParsedAuthorizedKey.fail.injEq] at h
      exact h.1.symm
  | succ fuel ih =>
    intro input
    have hdrop : ((input.dropWhile (fun b => b != 10)).drop 1).length ≤ input.length - 1 := by
      have := (List.dropWhile_sublist (fun b => b != 10) (l := input)).length_le
      rw [List.length_drop]
      omega
    by_cases hpos : input.length > 0
    · cases hline : parseLine decodeKey (input.takeWhile (fun b => b != 10)) with
      | some out =>
        constructor
        · intro key rest h
          simp only [parseAuthorizedKeyLoop, hpos, if_true, hline,
            ParsedAuthorizedKey.ok.injEq] at h
          rw [← h.2]
          omega
        · intro rest err h
          simp [parseAuthorizedKeyLoop, hpos, hline] at h
      | none =>
        obtain ⟨ihok, ihfail⟩ := ih ((input.dropWhile (fun b => b != 10)).drop 1)
        constructor
        · intro key rest h
          simp only [parseAuthorizedKeyLoop, hpos, if_true, hline] at h
          have := ihok key rest h
          omega
        · intro rest err h
          simp only [parseAuthorizedKeyLoop, hpos, if_true, hline] at h
          exact ihfail rest err h
    · constructor
      · intro key rest h
        simp [parseAuthorizedKeyLoop, hpos] at h
      · intro rest err h
        simp only [parseAuthorizedKeyLoop, hpos, if_false, ParsedAuthorizedKey.fail.injEq] at h
        exact h.1.symm

/-- More fuel than `len(in) + 1` does not change what the library loop
returns. -/
theorem parseAuthorizedKeyLoop_fuel (decodeKey : Bytes → Option PublicKey) (n : Nat) :
    ∀ (input : Bytes), input.length ≤ n → ∀ fuel, input.length + 1 ≤ fuel →
      parseAuthorizedKeyLoop decodeKey fuel input = ParseAuthorizedKey decodeKey input := by
  induction n with
  | zero =>
    intro input hlen fuel hfuel
    have hnil : ¬ input.length > 0 := by omega
    obtain ⟨k, rfl⟩ : ∃ k, fuel = k + 1 := ⟨fuel - 1, by omega⟩
    simp only [ParseAuthorizedKey, parseAuthorizedKeyLoop, hnil, if_false]
  | succ n ih =>
    intro input hlen fuel hfuel
    obtain ⟨k, rfl⟩ : ∃ k, fuel = k + 1 := ⟨fuel - 1, by omega⟩
    by_cases hpos : input.length > 0
    · have hdrop : ((input.dropWhile (fun b => b != 10)).drop 1).length ≤ input.length - 1 := by
        have := (List.dropWhile_sublist (fun b => b != 10) (l := input)).length_le
        rw [List.length_drop]
        omega
      simp only [ParseAuthorizedKey, parseAuthorizedKeyLoop, hpos, if_true]
      cases hline : parseLine decodeKey (input.takeWhile (fun b => b != 10)) with
      | some out => rfl
      | none =>
        show parseAuthorizedKeyLoop decodeKey k _ = parseAuthorizedKeyLoop decodeKey input.length _
        rw [ih _ (by omega) k (by omega), ih _ (by omega) input.length (by omega)]
    · simp only [ParseAuthorizedKey, parseAuthorizedKeyLoop, hpos, if_false]

/-- The library parser returns the key of a first line that holds one, with
what follows the line. -/
theorem ParseAuthorizedKey_validLine (decodeKey : Bytes → Option PublicKey) (key : PublicKey)
    (line rest : Bytes) (h : ValidLine decodeKey key line) :
    ParseAuthorizedKey decodeKey (line ++ 10 :: rest) = .ok key rest := by
  have hpos : (line ++ 10 :: rest).length > 0 := by simp
  simp only [ParseAuthorizedKey, parseAuthorizedKeyLoop, hpos, if_true, takeWhile_line _ _ h.1,
    dropWhile_line _ _ h.1, h.2, List.drop_succ_cons, List.drop_zero]

/-- The library parser skips a first line that holds no key. -/
theorem ParseAuthorizedKey_invalidLine (decodeKey : Bytes → Option PublicKey)
    (line rest : Bytes) (h : InvalidLine decodeKey line) :
    ParseAuthorizedKey decodeKey (line ++ 10 :: rest) = ParseAuthorizedKey decodeKey rest := by
  have hpos : (line ++ 10 :: rest).length > 0 := by simp
  have hlen : rest.length + 1 ≤ (line ++ 10 :: rest).length := by simp
  simp only [ParseAuthorizedKey, parseAuthorizedKeyLoop, hpos, if_true, takeWhile_line _ _ h.1,
    dropWhile_line _ _ h.1, h.2, List.drop_succ_cons, List.drop_zero]
  exact parseAuthorizedKeyLoop_fuel decodeKey rest.length rest (Nat.le_refl _) _ hlen

theorem parsesRecords_append (ssh : SSH) (ks1 ks2 : List PublicKey) :
    ∀ (buf mid rest : Bytes), ParsesRecords ssh ks1 buf mid → ParsesRecords ssh ks2 mid rest →
      ParsesRecords ssh (ks1 ++ ks2) buf rest := by
  induction ks1 with
  | nil =>
    intro buf mid rest h1 h2
    have hb : buf = mid := h1
    subst hb
    exact h2
  | cons k ks ih =>
    intro buf mid rest h1 h2
    obtain ⟨hne, m, hparse, hrest⟩ := h1
    exact ⟨hne, m, hparse, ih m mid rest hrest h2⟩

/-- Lines that hold keys, followed by `rest`, are records in the sense of
`ParsesRecords` for the library parser. -/
theorem parsesRecords_joinLines (ssh : SSH) (decodeKey : Bytes → Option PublicKey)
    (hlib : ssh.ParseAuthorizedKey = ParseAuthorizedKey decodeKey)
    (recs : List (PublicKey × Bytes)) (rest : Bytes)
    (h : ∀ p ∈ recs, ValidLine decodeKey p.1 p.2) :
    ParsesRecords ssh (recs.map Prod.fst) (joinLines (recs.map Prod.snd) ++ rest) rest := by
  induction recs with
  | nil => rfl
  | cons p ps ih =>
    have hp : ValidLine decodeKey p.1 p.2 := h p (List.mem_cons_self _ _)
    have hps : ∀ q ∈ ps, ValidLine decodeKey q.1 q.2 := fun q hq => h q (List.mem_cons_of_mem _ hq)
    refine ⟨by simp [joinLines], joinLines (ps.map Prod.snd) ++ rest, ?_, ih hps⟩
    rw [hlib]
    simpa [joinLines] using
      ParseAuthorizedKey_validLine decodeKey p.1 p.2 (joinLines (ps.map Prod.snd) ++ rest) hp

/-- C2, as stated, fails on its own example: on the buffer `ssh-rsa A`, `??`,
`ssh-rsa B` (one record per line) the library parser skips the line `??`, the
loop of `AddAuthorizedKeys` runs twice and reports no error, and `B` is
authorized as well as `A`. -/
theorem AddAuthorizedKeys_garbage_between_valid :
    AddAuthorizedKeys sampleSSH 3 NewServer (validA ++ garbage ++ validB)
      = some
          { server :=
              { NewServer with
                AuthorizedKeys :=
                  ((∅ : KeyMap).insert (ascii "A") true).insert (ascii "B") true }
            debug := []
            parses := 2 } ∧
    ascii "B" ∈ ((∅ : KeyMap).insert (ascii "A") true).insert (ascii "B") true := by
  decide

/-- C2, amended: when the buffer is `valid.length` lines that hold keys, then
one line that holds none, then `trailing.length` further lines that hold
keys, and the parser is the library one, `AddAuthorizedKeys` returns with all
the keys of the lines before and after the invalid one added: the keys of the
map are the keys it had together with the marshaled forms of all of them,
each mapped to `true`, every other entry is as it was, and the rest of the
server is unchanged.  The invalid line is skipped by the parser and not
reported: with further lines after it the loop runs once per key and there is
no debug line; only with none after it does the parser report an error, on
which the loop stops after `valid.length + 1` iterations with one debug line
and the keys inserted before. -/
theorem AddAuthorizedKeys_skips_invalid_record (ssh : SSH)
    (decodeKey : Bytes → Option PublicKey)
    (hlib : ssh.ParseAuthorizedKey = ParseAuthorizedKey decodeKey) (s : Server)
    (valid trailing : List (PublicKey × Bytes)) (bad : Bytes) (fuel : Nat)
    (hvalid : ∀ p ∈ valid, ValidLine decodeKey p.1 p.2)
    (hbad : InvalidLine decodeKey bad)
    (htrailing : ∀ p ∈ trailing, ValidLine decodeKey p.1 p.2)
    (hfuel : valid.length + trailing.length + 1 ≤ fuel) :
    ∃ r,
      AddAuthorizedKeys ssh fuel s
          (joinLines (valid.map Prod.snd) ++ joinLines [bad] ++ joinLines (trailing.map Prod.snd))
        = some r ∧
      r.server.ServerConfig = s.ServerConfig ∧ r.server.Socket = s.Socket ∧
      r.server.AuthorizedKeys.keys
        = s.AuthorizedKeys.keys ∪ ((valid ++ trailing).map (fun p => p.1.Marshal)).toFinset ∧
      (∀ p ∈ valid ++ trailing, r.server.AuthorizedKeys.lookup p.1.Marshal = some true) ∧
      (∀ b, b ∉ (valid ++ trailing).map (fun p => p.1.Marshal) →
        r.server.AuthorizedKeys.lookup b = s.AuthorizedKeys.lookup b) ∧
      (if trailing = [] then
          r.parses = valid.length + 1 ∧
            r.debug = [⟨"Error parsing key: %v", ["ssh: no key found"]⟩]
        else r.parses = valid.length + trailing.length ∧ r.debug = []) := by
  have hmap : ((valid ++ trailing).map Prod.fst).map (fun key => key.Marshal)
      = (valid ++ trailing).map (fun p => p.1.Marshal) := by
    simp [List.map_map, Function.comp_def]
  have hprops : ∀ r : AddKeysResult,
      r.server = { s with
        AuthorizedKeys := insertKeys s.AuthorizedKeys ((valid ++ trailing).map Prod.fst) } →
      r.server.ServerConfig = s.ServerConfig ∧ r.server.Socket = s.Socket ∧
      r.server.AuthorizedKeys.keys
        = s.AuthorizedKeys.keys ∪ ((valid ++ trailing).map (fun p => p.1.Marshal)).toFinset ∧
      (∀ p ∈ valid ++ trailing, r.server.AuthorizedKeys.lookup p.1.Marshal = some true) ∧
      (∀ b, b ∉ (valid ++ trailing).map (fun p => p.1.Marshal) →
        r.server.AuthorizedKeys.lookup b = s.AuthorizedKeys.lookup b) := by
    intro r hr
    rw [hr]
    refine ⟨rfl, rfl, ?_, ?_, ?_⟩
    · show (insertKeys s.AuthorizedKeys _).keys = _
      rw [keys_insertKeys, hmap]
    · intro p hp
      show (insertKeys s.AuthorizedKeys _).lookup _ = _
      have hmem : p.1.Marshal ∈ (valid ++ trailing).map (fun p => p.1.Marshal) :=
        List.mem_map_of_mem (fun p => p.1.Marshal) hp
      rw [lookup_insertKeys, hmap, if_pos hmem]
    · intro b hb
      show (insertKeys s.AuthorizedKeys _).lookup _ = _
      rw [lookup_insertKeys, hmap, if_neg hb]
  have hfirst := parsesRecords_joinLines ssh decodeKey hlib valid
    (joinLines [bad] ++ joinLines (trailing.map Prod.snd)) hvalid
  rw [← List.append_assoc] at hfirst
  cases trailing with
  | nil =>
    have hfail : ssh.ParseAuthorizedKey (joinLines [bad] ++ joinLines (([] : List (PublicKey × Bytes)).map Prod.snd))
        = .fail [] (.errorString "ssh: no key found") := by
      rw [hlib]
      have := ParseAuthorizedKey_invalidLine decodeKey bad [] hbad
      simpa [joinLines, ParseAuthorizedKey, parseAuthorizedKeyLoop] using this
    have hrun := AddAuthorizedKeys_records_then_fail ssh s (valid.map Prod.fst) _ _ [] _ fuel
      hfirst (by simp [joinLines]) hfail (by simpa using hfuel)
    refine ⟨_, hrun, ?_⟩
    obtain ⟨h1, h2, h3, h4, h5⟩ := hprops
      { server := { s with AuthorizedKeys := insertKeys s.AuthorizedKeys (valid.map Prod.fst) }
        debug := []
        parses := 0 } (by simp)
    exact ⟨h1, h2, h3, h4, h5, by simp [GoError.render]⟩
  | cons t ts =>
    have ht : ValidLine decodeKey t.1 t.2 := htrailing t (List.mem_cons_self _ _)
    have hts : ∀ q ∈ ts, ValidLine decodeKey q.1 q.2 :=
      fun q hq => htrailing q (List.mem_cons_of_mem _ hq)
    have hsecond : ParsesRecords ssh ((t :: ts).map Prod.fst)
        (joinLines [bad] ++ joinLines ((t :: ts).map Prod.snd)) [] := by
      refine ⟨by simp [joinLines], joinLines (ts.map Prod.snd), ?_, ?_⟩
      · rw [hlib]
        have h1 := ParseAuthorizedKey_invalidLine decodeKey bad
          (joinLines ((t :: ts).map Prod.snd)) hbad
        have h2 := ParseAuthorizedKey_validLine decodeKey t.1 t.2 (joinLines (ts.map Prod.snd)) ht
        simp only [joinLines, List.map_cons, List.append_assoc, List.cons_append,
          List.nil_append] at h1 h2 ⊢
        rw [h1, h2]
      · simpa using parsesRecords_joinLines ssh decodeKey hlib ts [] hts
    have hall := parsesRecords_append ssh _ _ _ _ _ hfirst hsecond
    rw [← List.map_append] at hall
    have hrun := AddAuthorizedKeys_records ssh s _ _ fuel hall
      (by simpa using hfuel)
    refine ⟨_, hrun, ?_⟩
    obtain ⟨h1, h2, h3, h4, h5⟩ := hprops
      { server := { s with
          AuthorizedKeys := insertKeys s.AuthorizedKeys ((valid ++ t :: ts).map Prod.fst) }
        debug := []
        parses := 0 } rfl
    exact ⟨h1, h2, h3, h4, h5, by simp⟩

/-- C2, amended, at the buffer `ssh-rsa A`, `??`, `ssh-rsa B` and a new
server: `A` and `B` are both authorized, after two iterations and with no
debug line. -/
theorem AddAuthorizedKeys_skips_invalid_record_witness :
    ∃ r, AddAuthorizedKeys sampleSSH 3 NewServer (validA ++ garbage ++ validB) = some r ∧
      r.server.AuthorizedKeys.keys = {ascii "A", ascii "B"} ∧
      r.parses = 2 ∧ r.debug = [] := by
  obtain ⟨r, hr, -, -, hk, -, -, hp⟩ :=
    AddAuthorizedKeys_skips_invalid_record sampleSSH sampleDecodeKey rfl NewServer
      [(⟨"ssh-rsa", ascii "A"⟩, ascii "ssh-rsa A")] [(⟨"ssh-rsa", ascii "B"⟩, ascii "ssh-rsa B")]
      (ascii "??") 3 (by decide) (by decide) (by decide) (by decide)
  refine ⟨r, hr, ?_, ?_, ?_⟩
  · rw [hk]
    decide
  · exact (by simpa using hp : r.parses = 2 ∧ r.debug = []).1
  · exact (by simpa using hp : r.parses = 2 ∧ r.debug = []).2

/-- C3: when the buffer is valid records and nothing else, the keys of
`AuthorizedKeys` after `AddAuthorizedKeys` are the keys before together with
the marshaled forms of all the records, their number has grown by the number
of distinct marshaled forms that were not keys before, and a second call with
the same buffer on the resulting server gives the same server again. -/
theorem AddAuthorizedKeys_valid_records (ssh : SSH) (s : Server) (keys : List PublicKey)
    (buf : Bytes) (fuel : Nat)
    (hvalid : ParsesRecords ssh keys buf []) (hfuel : keys.length + 1 ≤ fuel) :
    ∃ r, AddAuthorizedKeys ssh fuel s buf = some r ∧
      r.parses = keys.length ∧
      r.server.AuthorizedKeys.keys
        = s.AuthorizedKeys.keys ∪ (keys.map (fun key => key.Marshal)).toFinset ∧
      r.server.AuthorizedKeys.keys.card
        = s.AuthorizedKeys.keys.card
          + ((keys.map (fun key => key.Marshal)).toFinset \ s.AuthorizedKeys.keys).card ∧
      AddAuthorizedKeys ssh fuel r.server buf = some r := by
  refine ⟨_, AddAuthorizedKeys_records ssh s keys buf fuel hvalid hfuel, rfl,
    keys_insertKeys keys s.AuthorizedKeys, ?_, ?_⟩
  · show (insertKeys s.AuthorizedKeys keys).keys.card = _
    rw [keys_insertKeys, ← Finset.union_sdiff_self_eq_union,
      Finset.card_union_of_disjoint Finset.disjoint_sdiff]
  · rw [AddAuthorizedKeys_records ssh _ keys buf fuel hvalid hfuel]
    simp only [insertKeys_insertKeys]

/-- C3 at the buffer `ssh-rsa A`, `ssh-rsa B`, `ssh-rsa A` and a server that
already authorizes `B`: the map grows by one key, `A`, and a second call
changes nothing. -/
theorem AddAuthorizedKeys_valid_records_witness :
    ∃ r,
      AddAuthorizedKeys sampleSSH 4
          { NewServer with AuthorizedKeys := Finmap.singleton (ascii "B") true }
          (validA ++ validB ++ validA) = some r ∧
      r.server.AuthorizedKeys.keys = {ascii "A", ascii "B"} ∧
      r.server.AuthorizedKeys.keys.card = 1 + 1 ∧
      AddAuthorizedKeys sampleSSH 4 r.server (validA ++ validB ++ validA) = some r := by
  obtain ⟨r, hr, -, hk, hc, hi⟩ :=
    AddAuthorizedKeys_valid_records sampleSSH
      { NewServer with AuthorizedKeys := Finmap.singleton (ascii "B") true }
      [⟨"ssh-rsa", ascii "A"⟩, ⟨"ssh-rsa", ascii "B"⟩, ⟨"ssh-rsa", ascii "A"⟩]
      (validA ++ validB ++ validA) 4
      ⟨by decide, validB ++ validA, by decide, by decide, validA, by decide, by decide, [],
        by decide, rfl⟩
      (by decide)
  refine ⟨r, hr, ?_, ?_, hi⟩
  · rw [hk]
    decide
  · rw [hc]
    decide

/-- With a parser whose rest after a success is shorter than its input, the
loop on a buffer of at most `n` bytes ends within `n` iterations. -/
theorem addAuthorizedKeysLoop_terminates (ssh : SSH)
    (hshrink : ∀ input key rest,
      ssh.ParseAuthorizedKey input = .ok key rest → rest.length < input.length)
    (n : Nat) :
    ∀ (buf : Bytes) (st : AddKeysResult), buf.length ≤ n →
      ∃ r, (∀ fuel, n + 1 ≤ fuel → addAuthorizedKeysLoop ssh fuel st buf = some r) ∧
        r.parses ≤ st.parses + buf.length := by
  induction n with
  | zero =>
    intro buf st hlen
    have hnil : ¬ buf.length > 0 := by omega
    refine ⟨st, ?_, by omega⟩
    intro fuel hfuel
    obtain ⟨k, rfl⟩ : ∃ k, fuel = k + 1 := ⟨fuel - 1, by omega⟩
    simp only [addAuthorizedKeysLoop, hnil, if_false]
  | succ n ih =>
    intro buf st hlen
    by_cases hpos : buf.length > 0
    · cases hparse : ssh.ParseAuthorizedKey buf with
      | fail left err =>
        refine ⟨{ st with
          debug := st.debug ++ [⟨"Error parsing key: %v", [err.render]⟩]
          parses := st.parses + 1 }, ?_, ?_⟩
        · intro fuel hfuel
          obtain ⟨k, rfl⟩ : ∃ k, fuel = k + 1 := ⟨fuel - 1, by omega⟩
          simp only [addAuthorizedKeysLoop, hpos, if_true, hparse]
        · show st.parses + 1 ≤ st.parses + buf.length
          omega
      | ok newKey left =>
        have hleft : left.length ≤ n := by
          have := hshrink buf newKey left hparse
          omega
        obtain ⟨r, hr, hp⟩ := ih left
          { server := { st.server with
              AuthorizedKeys := st.server.AuthorizedKeys.insert newKey.Marshal true }
            debug := st.debug
            parses := st.parses + 1 } hleft
        refine ⟨r, ?_, ?_⟩
        · intro fuel hfuel
          obtain ⟨k, rfl⟩ : ∃ k, fuel = k + 1 := ⟨fuel - 1, by omega⟩
          simp only [addAuthorizedKeysLoop, hpos, if_true, hparse]
          exact hr k (by omega)
        · have := hshrink buf newKey left hparse
          have hp' : r.parses ≤ st.parses + 1 + left.length := hp
          omega
    · refine ⟨st, ?_, by omega⟩
      intro fuel hfuel
      obtain ⟨k, rfl⟩ : ∃ k, fuel = k + 1 := ⟨fuel - 1, by omega⟩
      simp only [addAuthorizedKeysLoop, hpos, if_false]

/-- The sample parser leaves, after a success, less than it was given. -/
theorem sampleParseAuthorizedKey_shrinks (input : Bytes) (key : PublicKey) (rest : Bytes)
    (h : sampleParseAuthorizedKey input = .ok key rest) : rest.length < input.length :=
  (parseAuthorizedKeyLoop_rest sampleDecodeKey (input.length + 1) input).1 key rest h

/-- C10: with a parser whose rest after a success is shorter than its
input, `AddAuthorizedKeys` returns on every buffer, within `len(keyData)`
iterations (`len(keyData) + 1` evaluations of the loop condition are enough,
and more change nothing); on the empty buffer it returns at once, having
called no parser, with the server as it was and no debug output. -/
theorem AddAuthorizedKeys_terminates (ssh : SSH)
    (hshrink : ∀ input key rest,
      ssh.ParseAuthorizedKey input = .ok key rest → rest.length < input.length)
    (s : Server) (keyData : Bytes) :
    (∃ r, (∀ fuel, keyData.length + 1 ≤ fuel → AddAuthorizedKeys ssh fuel s keyData = some r) ∧
      r.parses ≤ keyData.length) ∧
    ∀ fuel, AddAuthorizedKeys ssh (fuel + 1) s [] = some { server := s, debug := [], parses := 0 } := by
  constructor
  · obtain ⟨r, hr, hp⟩ := addAuthorizedKeysLoop_terminates ssh hshrink keyData.length keyData
      { server := s, debug := [], parses := 0 } (Nat.le_refl _)
    exact ⟨r, hr, by simpa using hp⟩
  · intro fuel
    simp [AddAuthorizedKeys, addAuthorizedKeysLoop]

/-- C10 at the sample parser and the buffer `ssh-rsa A`, `??`, `ssh-rsa B`
of 23 bytes: the call returns, after 2 iterations. -/
theorem AddAuthorizedKeys_terminates_witness :
    (∃ r, (∀ fuel, (validA ++ garbage ++ validB).length + 1 ≤ fuel →
          AddAuthorizedKeys sampleSSH fuel NewServer (validA ++ garbage ++ validB) = some r) ∧
        r.parses ≤ (validA ++ garbage ++ validB).length) ∧
    ∀ fuel, AddAuthorizedKeys sampleSSH (fuel + 1) NewServer []
      = some { server := NewServer, debug := [], parses := 0 } :=
  AddAuthorizedKeys_terminates sampleSSH sampleParseAuthorizedKey_shrinks NewServer
    (validA ++ garbage ++ validB)

end Sshdog
